import Mathlib

/-!
Verification of the training-pipeline orchestration core of `netspresso-trainer`
(`src/netspresso_trainer/pipelines/base.py`, `detection.py`, `segmentation.py`).

The Python code is shallowly embedded: dictionaries with insertion order become
association lists, Python `float` learning rates become `ℚ` (only ordering and
equality of these values matter to the orchestration logic, never rounding),
raising code returns `Except PyError`, and side effects (checkpoint writes,
summary writes, log records, collective barriers) become explicit event lists.
-/

namespace NetspressoTrainer

/-- Python exception kinds that the modelled code paths can raise. -/
inductive PyError
  | valueError          -- `min()` of an empty sequence
  | indexError          -- `list[...][-1]` on an empty list
  | fileNotFoundError   -- `torch.load` on a nonexistent path
  | typeError           -- call missing a required positional argument
  | unboundLocalError   -- reference to a local variable never assigned
  | keyboardInterrupt   -- user interrupt propagating out of `train()`
  | exception           -- any other unhandled runtime exception
deriving DecidableEq, Repr

deriving instance DecidableEq for Except

/-! ## Python `range` over integers -/

/-- `pythonRangeGo n x = [x, x+1, ..., x+n-1]`. -/
def pythonRangeGo : Nat → Int → List Int
  | 0, _ => []
  | n + 1, x => x :: pythonRangeGo n (x + 1)

/-- Python `range(a, b)` as the list of integers `a, a+1, ..., b-1` (empty when `b ≤ a`). -/
def pythonRange (a b : Int) : List Int := pythonRangeGo (b - a).toNat a

theorem pythonRangeGo_length (n : Nat) (x : Int) : (pythonRangeGo n x).length = n := by
  induction n generalizing x with
  | zero => rfl
  | succ m ih => simp [pythonRangeGo, ih]

theorem pythonRangeGo_append (m n : Nat) (x : Int) :
    pythonRangeGo (m + n) x = pythonRangeGo m x ++ pythonRangeGo n (x + m) := by
  induction m generalizing x with
  | zero => simp [pythonRangeGo]
  | succ k ih =>
    have h1 : k + 1 + n = (k + n) + 1 := by omega
    have h2 : x + 1 + (k : Int) = x + ((k + 1 : Nat) : Int) := by push_cast; ring
    rw [h1]
    simp only [pythonRangeGo, List.cons_append]
    rw [ih (x + 1), h2]

theorem pythonRangeGo_getLast? (n : Nat) (x : Int) (h : 0 < n) :
    (pythonRangeGo n x).getLast? = some (x + n - 1) := by
  induction n generalizing x with
  | zero => omega
  | succ m ih =>
    cases m with
    | zero =>
      show ([x] : List Int).getLast? = some (x + ((1 : Nat) : Int) - 1)
      simp
    | succ k =>
      have h2 := ih (x + 1) (Nat.succ_pos k)
      have h3 : pythonRangeGo (k + 1 + 1) x = x :: pythonRangeGo (k + 1) (x + 1) := rfl
      have h5 : pythonRangeGo (k + 1) (x + 1) = (x + 1) :: pythonRangeGo k (x + 1 + 1) := rfl
      rw [h3, h5, List.getLast?_cons_cons, ← h5, h2]
      congr 1
      push_cast
      ring

theorem pythonRange_length (a b : Int) : (pythonRange a b).length = (b - a).toNat :=
  pythonRangeGo_length _ _

theorem pythonRange_nil (a b : Int) (h : b ≤ a) : pythonRange a b = [] := by
  unfold pythonRange
  have : (b - a).toNat = 0 := by omega
  rw [this]
  rfl

theorem pythonRange_cons (a b : Int) (h : a < b) :
    pythonRange a b = a :: pythonRange (a + 1) b := by
  unfold pythonRange
  have h1 : (b - a).toNat = (b - (a + 1)).toNat + 1 := by omega
  rw [h1]
  rfl

theorem pythonRange_append (a b c : Int) (hab : a ≤ b) (hbc : b ≤ c) :
    pythonRange a c = pythonRange a b ++ pythonRange b c := by
  unfold pythonRange
  have h1 : (c - a).toNat = (b - a).toNat + (c - b).toNat := by omega
  have h2 : a + (((b - a).toNat : Nat) : Int) = b := by omega
  rw [h1, pythonRangeGo_append, h2]

theorem pythonRange_ne_nil (a b : Int) (h : a < b) : pythonRange a b ≠ [] := by
  rw [pythonRange_cons a b h]
  simp

theorem pythonRange_getLast? (a b : Int) (h : a < b) :
    (pythonRange a b).getLast? = some (b - 1) := by
  unfold pythonRange
  rw [pythonRangeGo_getLast? _ _ (by omega)]
  congr 1
  omega

/-! ## `TrainingSummary.__post_init__` (base.py lines 31–49)

Python dictionaries preserve insertion order, so the `train_losses` /
`valid_losses` dictionaries are embedded as association lists in insertion
order.  `min(d, key=d.get)` iterates the keys in that order and keeps the
first key attaining the minimal value; on an empty dict it raises
`ValueError`.  `list(d.keys())[-1]` is the most recently inserted key; on an
empty dict it raises `IndexError`. -/

/-- Fold of Python `min(d, key=d.get)` over the remaining entries: keep the
current best key/value, replacing only on a strictly smaller value. -/
def argminGo : List (Int × ℚ) → Int → ℚ → Int
  | [], bk, _ => bk
  | (k, v) :: rest, bk, bv =>
    if v < bv then argminGo rest k v else argminGo rest bk bv

/-- Python `min(d, key=d.get)`: the first key with minimal value, `ValueError` when empty. -/
def argminKey : List (Int × ℚ) → Except PyError Int
  | [] => .error .valueError
  | (k, v) :: rest => .ok (argminGo rest k v)

/-- Python `list(d.keys())[-1]`: the last inserted key, `IndexError` when empty. -/
def lastKey (d : List (Int × ℚ)) : Except PyError Int :=
  match d.getLast? with
  | none => .error .indexError
  | some (k, _) => .ok k

/-- `TrainingSummary.__post_init__`: computes `(best_epoch, last_epoch)`.
`best_epoch = min(valid_losses, key=valid_losses.get)` is evaluated first,
then `last_epoch = list(train_losses.keys())[-1]`. -/
def postInit (train_losses valid_losses : List (Int × ℚ)) : Except PyError (Int × Int) := do
  let best ← argminKey valid_losses
  let last ← lastKey train_losses
  return (best, last)

theorem argminGo_spec (l : List (Int × ℚ)) (bk : Int) (bv : ℚ) :
    ∃ rv, rv ≤ bv ∧ ((argminGo l bk bv = bk ∧ rv = bv) ∨ (argminGo l bk bv, rv) ∈ l) ∧
      ∀ p ∈ l, rv ≤ p.2 := by
  induction l generalizing bk bv with
  | nil => exact ⟨bv, le_refl _, Or.inl ⟨rfl, rfl⟩, by simp⟩
  | cons hd rest ih =>
    obtain ⟨k, v⟩ := hd
    by_cases h : v < bv
    · simp only [argminGo, if_pos h]
      obtain ⟨rv, hle, hmem, hall⟩ := ih k v
      refine ⟨rv, le_trans hle (le_of_lt h), ?_, ?_⟩
      · rcases hmem with ⟨heq, hveq⟩ | hin
        · exact Or.inr (by rw [heq, hveq]; exact List.mem_cons_self _ _)
        · exact Or.inr (List.mem_cons_of_mem _ hin)
      · intro p hp
        rcases List.mem_cons.mp hp with rfl | hp'
        · exact hle
        · exact hall p hp'
    · simp only [argminGo, if_neg h]
      obtain ⟨rv, hle, hmem, hall⟩ := ih bk bv
      refine ⟨rv, hle, ?_, ?_⟩
      · rcases hmem with ⟨heq, hveq⟩ | hin
        · exact Or.inl ⟨heq, hveq⟩
        · exact Or.inr (List.mem_cons_of_mem _ hin)
      · intro p hp
        rcases List.mem_cons.mp hp with rfl | hp'
        · exact le_trans hle (not_lt.mp h)
        · exact hall p hp'

/-- On a non-empty dict, `argminKey` returns a key holding a minimal value. -/
theorem argminKey_attains_min (l : List (Int × ℚ)) (h : l ≠ []) :
    ∃ b rv, argminKey l = .ok b ∧ (b, rv) ∈ l ∧ ∀ p ∈ l, rv ≤ p.2 := by
  cases l with
  | nil => exact absurd rfl h
  | cons hd rest =>
    obtain ⟨k, v⟩ := hd
    obtain ⟨rv, hle, hmem, hall⟩ := argminGo_spec rest k v
    refine ⟨argminGo rest k v, rv, rfl, ?_, ?_⟩
    · rcases hmem with ⟨heq, hveq⟩ | hin
      · rw [heq, hveq]; exact List.mem_cons_self _ _
      · exact List.mem_cons_of_mem _ hin
    · intro p hp
      rcases List.mem_cons.mp hp with rfl | hp'
      · exact hle
      · exact hall p hp'

/-! ## `BasePipeline.set_train` (base.py lines 144–168)

`build_optimizer` / `build_scheduler` construct fresh collaborator objects;
the orchestration logic only moves their state blobs around, so the optimizer
state dict is embedded as an opaque `Nat` identifier. -/

/-- Opaque optimizer state-dict blob (`optimizer.state_dict()` contents). -/
abbrev OptState := Nat

/-- Modelled from the spec: the learning-rate scheduler implementation
(`netspresso_trainer.schedulers.build_scheduler`) is not part of the sources
under verification; per the spec's collaborator contract it exposes an
internal step counter which tracks the index of the next epoch to be
processed.  Built fresh, the counter equals the run's first epoch index;
`step()` (called once at the end of every epoch) advances it by one;
`step(epoch=e)` sets it to `e` ("advances the scheduler to the resume
point"). -/
structure Scheduler where
  counter : Int
deriving DecidableEq, Repr

/-- Modelled from the spec: a freshly built scheduler for a run whose first
epoch index is `int(start_epoch_at_one)`. -/
def Scheduler.fresh (startEpochAtOne : Bool) : Scheduler :=
  ⟨if startEpochAtOne then 1 else 0⟩

/-- Modelled from the spec: `scheduler.step()` — advance by one epoch. -/
def Scheduler.step (s : Scheduler) : Scheduler := ⟨s.counter + 1⟩

/-- Modelled from the spec: `scheduler.step(epoch=e)` — jump to epoch `e`. -/
def Scheduler.stepTo (_ : Scheduler) (epoch : Int) : Scheduler := ⟨epoch⟩

/-- Contents of a persisted `training_summary.ckpt` file: the optimizer state
dict under `'optimizer'` and the summary's `last_epoch` / `start_epoch_at_one`
fields used by `set_train`. -/
structure CheckpointFile where
  optimizer : OptState
  lastEpoch : Int
  startEpochAtOne : Bool
deriving DecidableEq, Repr

/-- The pipeline attributes `set_train` establishes. -/
structure TrainState where
  optimizer : Option OptState
  scheduler : Option Scheduler
  start_epoch : Int
  start_epoch_at_one : Bool
deriving DecidableEq, Repr

/-- Log records emitted by the modelled code paths. -/
inductive LogEvent
  | warnMissingCheckpoint   -- "Traning summary checkpoint path ... is not found!..."
deriving DecidableEq, Repr

/-- `BasePipeline.set_train(resume_training_checkpoint)`.

`freshOpt` is the state of the optimizer newly built by `build_optimizer`;
`fs` maps a path to the checkpoint file stored there (`none` = no such file).
The source checks `resume_training_checkpoint.exists()` and logs a warning
when the file is missing, but then unconditionally falls through to
`torch.load(resume_training_checkpoint)`, which raises `FileNotFoundError`
on the missing path. -/
def set_train (freshOpt : OptState) (startEpochAtOneInit : Bool)
    (fs : String → Option CheckpointFile) (resume : Option String) :
    List LogEvent × Except PyError TrainState :=
  let fresh : TrainState :=
    { optimizer := some freshOpt,
      scheduler := some (Scheduler.fresh startEpochAtOneInit),
      start_epoch := if startEpochAtOneInit then 1 else 0,
      start_epoch_at_one := startEpochAtOneInit }
  match resume with
  | none => ([], .ok fresh)
  | some path =>
    let logs : List LogEvent :=
      if (fs path).isNone then [.warnMissingCheckpoint] else []
    match fs path with
    | none => (logs, .error .fileNotFoundError)
    | some ckpt =>
      let start_epoch := ckpt.lastEpoch + 1
      (logs, .ok
        { optimizer := some ckpt.optimizer,
          scheduler := some ((Scheduler.fresh startEpochAtOneInit).stepTo start_epoch),
          start_epoch := start_epoch,
          start_epoch_at_one := ckpt.startEpochAtOne })

/-- The scheduler state a fresh (non-resumed) run would hold after training
contiguously through epoch `lastEpoch`: built fresh, then stepped once at the
end of each executed epoch. -/
def schedulerAfterContiguous (atOne : Bool) (lastEpoch : Int) : Scheduler :=
  (pythonRange (if atOne then 1 else 0) (lastEpoch + 1)).foldl
    (fun s _ => s.step) (Scheduler.fresh atOne)

theorem foldl_step_counter (l : List Int) (s : Scheduler) :
    (l.foldl (fun t _ => Scheduler.step t) s).counter = s.counter + l.length := by
  induction l generalizing s with
  | nil => simp
  | cons hd rest ih =>
    rw [List.foldl_cons, ih s.step]
    simp only [Scheduler.step, List.length_cons]
    push_cast
    ring

theorem schedulerAfterContiguous_counter (atOne : Bool) (lastEpoch : Int)
    (h : 0 ≤ lastEpoch) :
    (schedulerAfterContiguous atOne lastEpoch).counter = lastEpoch + 1 := by
  unfold schedulerAfterContiguous
  rw [foldl_step_counter, pythonRange_length]
  unfold Scheduler.fresh
  cases atOne <;> simp <;> omega

/-! ## `BasePipeline.train` (base.py lines 186–234)

The epoch loop is embedded as a recursion over the list of epoch indices
`range(self.start_epoch, self.conf.training.epochs + self.start_epoch_at_one)`.
The body of one iteration (`train_one_epoch` + `validate`) is abstracted by an
outcome per epoch: it either finishes normally, raises `KeyboardInterrupt`,
or raises some other exception.  The optimizer's per-parameter-group learning
rates are a function `lrOf` of the scheduler's step counter, since only
`scheduler.step()` changes them between the points the orchestrator reads
them.  Side effects are collected as an ordered event list. -/

/-- Outcome of one epoch body (`train_one_epoch` / `validate`). -/
inductive EpochOutcome
  | ok                  -- epoch runs to completion
  | keyboardInterrupt   -- KeyboardInterrupt raised inside the epoch body
  | raisesError         -- any other exception raised inside the epoch body
deriving DecidableEq, Repr

/-- Ordered side effects of `train()`. -/
inductive Effect
  | logEpoch (epoch : Int) (lr : ℚ)  -- `log_end_epoch`: train_logger.log(..., learning_rate=lr)
  | schedulerStep                    -- `self.scheduler.step()`
  | logEndOfTraining                 -- `train_logger.log_end_of_traning(...)`
  | saveCheckpoint                   -- `self._save_checkpoint()`
  | saveSummary (lastEpoch : Int)    -- `self._save_summary()` persisting `last_epoch`
deriving DecidableEq, Repr

/-- `statistics.mean` over the listed values (the caller guarantees a
non-empty list; Python would raise on an empty one). -/
def pyMean (l : List ℚ) : ℚ := l.sum / l.length

/-- `BasePipeline.learning_rate`: the arithmetic mean of `param_group['lr']`
over `self.optimizer.param_groups`. -/
def learning_rate (param_group_lrs : List ℚ) : ℚ := pyMean param_group_lrs

/-- Result of `train()`: the emitted side effects and the exception escaping
to the caller (`none` = normal return). -/
structure TrainResult where
  effects : List Effect
  raised : Option PyError
deriving DecidableEq, Repr

/-- `self._save_checkpoint()` followed by `self._save_summary()` (the order
used both on normal completion and in the `except KeyboardInterrupt` handler).
`history` is the list of epochs recorded in `self.training_history` (in
insertion order).  `_save_summary` first constructs a `TrainingSummary`,
whose `__post_init__` raises `ValueError` when `valid_losses` is empty —
with `VALID_FREQ = 1` every recorded epoch carries a validation entry, so
this happens exactly when the history is empty.  Its `last_epoch` is the
last recorded epoch. -/
def saveCheckpointAndSummary (history : List Int) : List Effect × Option PyError :=
  match history.getLast? with
  | none => ([.saveCheckpoint], some .valueError)
  | some last => ([.saveCheckpoint, .saveSummary last], none)

/-- One pass of the `for num_epoch in range(...)` loop plus the epilogue of
`train()` (base.py lines 193–234), for the primary rank (`isPrimary`) or a
non-zero rank.

Arguments: remaining epoch indices, current scheduler, epochs recorded so far
in `training_history`, effects emitted so far, and whether the loop body has
ever assigned the local `time_for_epoch` (it is assigned only inside the loop
body, so with an empty range the epilogue's reference to it on the primary
rank raises `UnboundLocalError`, which the `except Exception` clause logs and
re-raises). -/
def trainGo (isPrimary : Bool) (lrOf : Int → List ℚ) (behavior : Int → EpochOutcome) :
    List Int → Scheduler → List Int → List Effect → Bool → TrainResult
  | [], _, history, effects, timeBound =>
    cond isPrimary
      (cond timeBound
        (match saveCheckpointAndSummary history with
         | (saves, err) => { effects := effects ++ [.logEndOfTraining] ++ saves, raised := err })
        -- `log_end_of_traning(final_metrics={'time_for_last_epoch': time_for_epoch})`
        -- raises UnboundLocalError; caught by `except Exception`, logged, re-raised.
        { effects := effects, raised := some .unboundLocalError })
      { effects := effects, raised := none }
  | e :: rest, sched, history, effects, _ =>
    match behavior e with
    | .ok =>
      -- train_one_epoch; validate; log_end_epoch (primary only, reading
      -- `learning_rate` before the scheduler steps); scheduler.step()
      let effects := effects ++
        (cond isPrimary [Effect.logEpoch e (learning_rate (lrOf sched.counter))] [])
      let history := cond isPrimary (history ++ [e]) history
      trainGo isPrimary lrOf behavior rest sched.step history (effects ++ [.schedulerStep]) true
    | .keyboardInterrupt =>
      -- `except KeyboardInterrupt`: primary rank saves checkpoint + summary,
      -- then the interrupt is re-raised (a ValueError raised while building
      -- the summary from an empty history propagates instead).
      cond isPrimary
        (match saveCheckpointAndSummary history with
         | (saves, some err) => { effects := effects ++ saves, raised := some err }
         | (saves, none) => { effects := effects ++ saves, raised := some .keyboardInterrupt })
        { effects := effects, raised := some .keyboardInterrupt }
    | .raisesError =>
      -- `except Exception`: logged and re-raised unmodified, no saves.
      { effects := effects, raised := some .exception }

/-- The epoch indices `train()` iterates over:
`range(self.start_epoch, self.conf.training.epochs + self.start_epoch_at_one)`. -/
def trainEpochRange (start_epoch epochs : Int) (atOne : Bool) : List Int :=
  pythonRange start_epoch (epochs + (if atOne then 1 else 0))

/-- `BasePipeline.train()`. `sched` is the scheduler state left by
`set_train` and `behavior e` the outcome of epoch `e`'s body. -/
def train (isPrimary : Bool) (start_epoch epochs : Int) (atOne : Bool)
    (sched : Scheduler) (lrOf : Int → List ℚ) (behavior : Int → EpochOutcome) : TrainResult :=
  trainGo isPrimary lrOf behavior (trainEpochRange start_epoch epochs atOne) sched [] [] false

/-- Trace of the per-epoch effects of a run of all-`ok` epochs on the primary
rank, starting at scheduler counter `c`: each epoch logs the learning rate in
effect during it, then steps the scheduler. -/
def okTrace (lrOf : Int → List ℚ) : List Int → Int → List Effect
  | [], _ => []
  | e :: rest, c =>
    Effect.logEpoch e (learning_rate (lrOf c)) :: Effect.schedulerStep :: okTrace lrOf rest (c + 1)

/-- Advancing `trainGo` over a prefix of all-`ok` epochs on the primary rank. -/
theorem trainGo_ok_run (lrOf : Int → List ℚ) (behavior : Int → EpochOutcome)
    (l : List Int) (hok : ∀ e ∈ l, behavior e = .ok) :
    ∀ (rest : List Int) (c : Int) (history : List Int) (effects : List Effect) (tb : Bool),
    trainGo true lrOf behavior (l ++ rest) ⟨c⟩ history effects tb =
      trainGo true lrOf behavior rest ⟨c + l.length⟩ (history ++ l)
        (effects ++ okTrace lrOf l c) (tb || !l.isEmpty) := by
  induction l with
  | nil => intro rest c history effects tb; simp [okTrace]
  | cons e l' ih =>
    intro rest c history effects tb
    have he : behavior e = .ok := hok e (List.mem_cons_self _ _)
    rw [List.cons_append, trainGo, he]
    simp only [cond_true, Scheduler.step]
    rw [ih (fun x hx => hok x (List.mem_cons_of_mem _ hx)) rest (c + 1)]
    have hc : c + 1 + (l'.length : Int) = c + ((l'.length + 1 : Nat) : Int) := by
      push_cast; ring
    simp only [List.length_cons, hc, List.append_assoc, List.singleton_append,
      List.cons_append, List.isEmpty_cons, Bool.not_false, Bool.true_or, Bool.or_true,
      okTrace, List.nil_append]

theorem pythonRangeGo_mem (n : Nat) (x e : Int) :
    e ∈ pythonRangeGo n x ↔ x ≤ e ∧ e < x + n := by
  induction n generalizing x with
  | zero => simp [pythonRangeGo]
  | succ m ih =>
    rw [pythonRangeGo, List.mem_cons, ih (x + 1)]
    push_cast
    omega

theorem pythonRange_mem (a b e : Int) : e ∈ pythonRange a b ↔ a ≤ e ∧ e < b := by
  unfold pythonRange
  rw [pythonRangeGo_mem]
  omega

/-- The `(epoch, learning_rate)` pairs of the logged end-of-epoch records, in order. -/
def loggedOf : List Effect → List (Int × ℚ)
  | [] => []
  | .logEpoch e lr :: rest => (e, lr) :: loggedOf rest
  | .schedulerStep :: rest => loggedOf rest
  | .logEndOfTraining :: rest => loggedOf rest
  | .saveCheckpoint :: rest => loggedOf rest
  | .saveSummary _ :: rest => loggedOf rest

/-- The `last_epoch` values of the persisted training summaries, in order. -/
def summaryEpochsOf : List Effect → List Int
  | [] => []
  | .saveSummary k :: rest => k :: summaryEpochsOf rest
  | .logEpoch _ _ :: rest => summaryEpochsOf rest
  | .schedulerStep :: rest => summaryEpochsOf rest
  | .logEndOfTraining :: rest => summaryEpochsOf rest
  | .saveCheckpoint :: rest => summaryEpochsOf rest

theorem loggedOf_append (l1 l2 : List Effect) :
    loggedOf (l1 ++ l2) = loggedOf l1 ++ loggedOf l2 := by
  induction l1 with
  | nil => rfl
  | cons hd rest ih => cases hd <;> simp [loggedOf, ih]

theorem summaryEpochsOf_append (l1 l2 : List Effect) :
    summaryEpochsOf (l1 ++ l2) = summaryEpochsOf l1 ++ summaryEpochsOf l2 := by
  induction l1 with
  | nil => rfl
  | cons hd rest ih => cases hd <;> simp [summaryEpochsOf, ih]

/-- The learning rate each logged epoch should report: the epoch at position
`i` of the executed range is logged with the mean group rate at scheduler
counter `c + i`, i.e. the value in effect during that epoch (the counter
advances only after the log). -/
def expectedLog (lrOf : Int → List ℚ) : List Int → Int → List (Int × ℚ)
  | [], _ => []
  | e :: rest, c => (e, learning_rate (lrOf c)) :: expectedLog lrOf rest (c + 1)

theorem loggedOf_okTrace (lrOf : Int → List ℚ) (l : List Int) (c : Int) :
    loggedOf (okTrace lrOf l c) = expectedLog lrOf l c := by
  induction l generalizing c with
  | nil => rfl
  | cons e rest ih => simp [okTrace, loggedOf, expectedLog, ih]

theorem okTrace_no_saveCheckpoint (lrOf : Int → List ℚ) (l : List Int) (c : Int) :
    (okTrace lrOf l c).count Effect.saveCheckpoint = 0 := by
  induction l generalizing c with
  | nil => rfl
  | cons e rest ih => simp [okTrace, List.count_cons, ih]

theorem okTrace_no_summary (lrOf : Int → List ℚ) (l : List Int) (c : Int) :
    summaryEpochsOf (okTrace lrOf l c) = [] := by
  induction l generalizing c with
  | nil => rfl
  | cons e rest ih => simp [okTrace, summaryEpochsOf, ih]

/-- A full primary-rank run in which every epoch of the (non-empty) range
completes normally: the per-epoch trace, then the end-of-training log, one
checkpoint and one summary whose `last_epoch` is the final epoch index. -/
theorem train_ok_primary (start epochs : Int) (atOne : Bool) (c : Int)
    (lrOf : Int → List ℚ) (behavior : Int → EpochOutcome)
    (hne : start < epochs + (if atOne then 1 else 0))
    (hok : ∀ e, behavior e = .ok) :
    train true start epochs atOne ⟨c⟩ lrOf behavior =
      { effects := okTrace lrOf (trainEpochRange start epochs atOne) c ++
          [.logEndOfTraining, .saveCheckpoint,
           .saveSummary (epochs + (if atOne then 1 else 0) - 1)],
        raised := none } := by
  unfold train
  have hsplit : trainEpochRange start epochs atOne =
      trainEpochRange start epochs atOne ++ [] := by simp
  rw [hsplit, trainGo_ok_run lrOf behavior _ (fun e _ => hok e)]
  have hnonempty : (trainEpochRange start epochs atOne).isEmpty = false := by
    unfold trainEpochRange
    rw [List.isEmpty_eq_false_iff_exists_mem]
    exact ⟨start, (pythonRange_mem _ _ _).mpr ⟨le_refl _, hne⟩⟩
  rw [trainGo, hnonempty]
  simp only [Bool.not_false, Bool.or_true, cond_true, List.nil_append]
  have hlast : (trainEpochRange start epochs atOne).getLast? =
      some (epochs + (if atOne then 1 else 0) - 1) :=
    pythonRange_getLast? _ _ hne
  rw [saveCheckpointAndSummary, hlast]
  simp

/-- A primary-rank run whose epoch range is empty: the loop body never runs,
`time_for_epoch` is never assigned, and the end-of-training log raises
`UnboundLocalError`; nothing is logged or saved. -/
theorem train_empty_primary (start epochs : Int) (atOne : Bool) (c : Int)
    (lrOf : Int → List ℚ) (behavior : Int → EpochOutcome)
    (hempty : epochs + (if atOne then 1 else 0) ≤ start) :
    train true start epochs atOne ⟨c⟩ lrOf behavior =
      { effects := [], raised := some .unboundLocalError } := by
  unfold train trainEpochRange
  rw [pythonRange_nil _ _ hempty]
  rfl

/-- A primary-rank run whose epochs before `eI` all complete and whose epoch
`eI` raises: on `KeyboardInterrupt` the handler persists one checkpoint and
one summary recording the last completed epoch `eI - 1` and re-raises; on any
other exception it is logged and re-raised with nothing persisted. -/
theorem train_raise_primary (start epochs : Int) (atOne : Bool) (c : Int)
    (lrOf : Int → List ℚ) (behavior : Int → EpochOutcome) (eI : Int)
    (hlo : start < eI) (hhi : eI < epochs + (if atOne then 1 else 0))
    (hok : ∀ e, start ≤ e → e < eI → behavior e = .ok) :
    (behavior eI = .keyboardInterrupt →
      train true start epochs atOne ⟨c⟩ lrOf behavior =
        { effects := okTrace lrOf (pythonRange start eI) c ++
            [.saveCheckpoint, .saveSummary (eI - 1)],
          raised := some .keyboardInterrupt }) ∧
    (behavior eI = .raisesError →
      train true start epochs atOne ⟨c⟩ lrOf behavior =
        { effects := okTrace lrOf (pythonRange start eI) c,
          raised := some .exception }) := by
  have hsplit : trainEpochRange start epochs atOne =
      pythonRange start eI ++ (eI :: pythonRange (eI + 1) (epochs + (if atOne then 1 else 0))) := by
    unfold trainEpochRange
    rw [pythonRange_append start eI _ (le_of_lt hlo) (le_of_lt hhi), pythonRange_cons _ _ hhi]
  have hpre : ∀ e ∈ pythonRange start eI, behavior e = .ok := by
    intro e he
    obtain ⟨h1, h2⟩ := (pythonRange_mem _ _ _).mp he
    exact hok e h1 h2
  have hlast : (pythonRange start eI).getLast? = some (eI - 1) :=
    pythonRange_getLast? _ _ hlo
  constructor
  · intro hb
    unfold train
    rw [hsplit, trainGo_ok_run lrOf behavior _ hpre, trainGo, hb]
    simp only [cond_true, List.nil_append]
    rw [saveCheckpointAndSummary, hlast]
  · intro hb
    unfold train
    rw [hsplit, trainGo_ok_run lrOf behavior _ hpre, trainGo, hb]
    simp

/-! ## `BasePipeline.validate` (base.py lines 240–253) -/

/-- `NUM_SAMPLES = 16` (base.py line 28). -/
def NUM_SAMPLES : Nat := 16

/-- `VALID_FREQ = 1` (base.py line 27). -/
def VALID_FREQ : Nat := 1

/-- One batch's `valid_step` output record as consumed by `validate`:
`predCount` is `len(out['pred'])`, `tag` identifies the batch payload. -/
structure BatchOut where
  tag : Nat
  predCount : Nat
deriving DecidableEq, Repr

/-- The `phase` literal of the metric interfaces. -/
inductive Phase
  | train
  | valid
deriving DecidableEq, Repr

/-- One invocation of `self.get_metric_with_all_outputs(...)` together with
the arguments it was passed; `phase := none` records that no `phase`
argument was supplied. -/
structure MetricCall where
  outputs : List BatchOut
  phase : Option Phase
deriving DecidableEq, Repr

/-- The `for idx, batch in enumerate(tqdm(self.eval_dataloader, ...))` loop of
`validate`: accumulates `num_returning_samples` (`n`), `returning_samples`
and `outputs`. -/
def validateGo (num_samples : Nat) :
    List (Option BatchOut) → Nat → List BatchOut → List BatchOut →
      List BatchOut × List BatchOut
  | [], _, returning, outputs => (returning, outputs)
  | none :: rest, n, returning, outputs => validateGo num_samples rest n returning outputs
  | some out :: rest, n, returning, outputs =>
    if n < num_samples then
      validateGo num_samples rest (n + out.predCount) (returning ++ [out]) (outputs ++ [out])
    else
      validateGo num_samples rest n returning (outputs ++ [out])

/-- What `validate` produces: the returned sample buffer and the metric
invocations it performed. -/
structure ValidateResult where
  samples : List BatchOut
  metricCalls : List MetricCall
deriving DecidableEq, Repr

/-- `BasePipeline.validate(num_samples=NUM_SAMPLES)` over the outputs that
`valid_step` yields for the eval dataloader's batches (`none` = the step
returned `None`).  After the pass it calls
`self.get_metric_with_all_outputs(outputs)` — with no `phase` argument —
and returns `returning_samples`. -/
def validate (evalOutputs : List (Option BatchOut)) : ValidateResult :=
  let p := validateGo NUM_SAMPLES evalOutputs 0 [] []
  { samples := p.1, metricCalls := [{ outputs := p.2, phase := none }] }

/-- Total prediction items across the listed batch outputs. -/
def predSum (l : List BatchOut) : Nat := (l.map BatchOut.predCount).sum

/-- Closed form of the sample-buffer accumulation: keep appending while the
running item count is strictly below the cap. -/
def collect (num_samples : Nat) : List BatchOut → Nat → List BatchOut
  | [], _ => []
  | o :: rest, n =>
    if n < num_samples then o :: collect num_samples rest (n + o.predCount) else []

theorem collect_of_full (N : Nat) (l : List BatchOut) (n : Nat) (h : ¬ n < N) :
    collect N l n = [] := by
  cases l with
  | nil => rfl
  | cons o rest => simp [collect, if_neg h]

theorem validateGo_outputs (N : Nat) (batches : List (Option BatchOut)) :
    ∀ (n : Nat) (ret outs : List BatchOut),
    (validateGo N batches n ret outs).2 = outs ++ batches.filterMap id := by
  induction batches with
  | nil => intro n ret outs; simp [validateGo]
  | cons hd rest ih =>
    intro n ret outs
    cases hd with
    | none => simp [validateGo, ih]
    | some out =>
      by_cases h : n < N
      · simp [validateGo, if_pos h, ih]
      · simp [validateGo, if_neg h, ih]

theorem validateGo_samples (N : Nat) (batches : List (Option BatchOut)) :
    ∀ (n : Nat) (ret outs : List BatchOut),
    (validateGo N batches n ret outs).1 = ret ++ collect N (batches.filterMap id) n := by
  induction batches with
  | nil => intro n ret outs; simp [validateGo, collect]
  | cons hd rest ih =>
    intro n ret outs
    cases hd with
    | none => simp [validateGo, ih]
    | some out =>
      by_cases h : n < N
      · simp [validateGo, if_pos h, ih, collect]
      · simp [validateGo, if_neg h, ih, collect_of_full N _ _ h,
          collect, List.filterMap_cons]

theorem collect_mem_iff (N : Nat) (l : List BatchOut) :
    ∀ (n i : Nat), i < (collect N l n).length ↔ i < l.length ∧ n + predSum (l.take i) < N := by
  induction l with
  | nil => intro n i; simp [collect]
  | cons o rest ih =>
    intro n i
    by_cases h : n < N
    · rw [collect, if_pos h]
      cases i with
      | zero => simpa [predSum] using h
      | succ j =>
        have := ih (n + o.predCount) j
        simp only [List.length_cons, List.take_succ_cons, predSum, List.map_cons,
          List.sum_cons] at this ⊢
        rw [Nat.succ_lt_succ_iff, Nat.succ_lt_succ_iff, this]
        omega
    · rw [collect, if_neg h]
      simp only [List.length_nil]
      constructor
      · omega
      · rintro ⟨h1, h2⟩; omega

theorem collect_eq_take (N : Nat) (l : List BatchOut) :
    ∀ (n : Nat), collect N l n = l.take (collect N l n).length := by
  induction l with
  | nil => intro n; simp [collect]
  | cons o rest ih =>
    intro n
    by_cases h : n < N
    · rw [collect, if_pos h]
      simp only [List.length_cons, List.take_succ_cons]
      rw [← ih (n + o.predCount)]
    · rw [collect, if_neg h]
      simp

/-! ## Task pipelines: sentinel filtering and barriers
(detection.py lines 17–109, segmentation.py lines 22–98)

Per-sample tensors are embedded as lists of opaque `Nat` payloads aligned
with the batch's `indices` list.  The Python pattern
`for idx, bool_idx in enumerate(indices != -1): if bool_idx: out.append(xs[idx])`
and the tensor form `xs[indices != -1]` both keep exactly the positions whose
index differs from the sentinel `-1`, in order. -/

/-- Keep the elements of `xs` at positions whose index is not `-1`. -/
def filterBySentinel : List Int → List α → List α
  | [], _ => []
  | _, [] => []
  | i :: is, x :: xs =>
    if i ≠ -1 then x :: filterBySentinel is xs else filterBySentinel is xs

theorem filterBySentinel_eq_filter_zip (indices : List Int) (xs : List α) :
    filterBySentinel indices xs =
      ((indices.zip xs).filter fun p => p.1 != -1).map Prod.snd := by
  induction indices generalizing xs with
  | nil => simp [filterBySentinel]
  | cons i is ih =>
    cases xs with
    | nil => simp [filterBySentinel]
    | cons x xs' =>
      by_cases h : i ≠ -1
      · simp [filterBySentinel, if_pos h, ih, List.filter_cons, h]
      · push_neg at h
        simp [filterBySentinel, h, ih, List.filter_cons]

/-- Batch record consumed by the detection steps (detection.py lines 19, 50). -/
structure DetBatch where
  indices : List Int
  pixel_values : List Nat
  label : List Nat
  bbox : List Nat
deriving DecidableEq, Repr

/-- The `logs` dict a detection step returns (`images` is present only in
`valid_step`), paired nowhere with the sentinel-filtered positions unless the
step filters. -/
structure DetRecord where
  images : Option (List Nat)
  target : List (Nat × Nat)
  pred : List Nat
deriving DecidableEq, Repr

namespace DetectionPipeline

/-- `DetectionPipeline.train_step` (detection.py lines 17–46): builds the
returned `logs` from the unmodified `bboxes`/`labels`/`pred`; in distributed
mode it only performs a barrier (second component) — no sentinel filtering. -/
def train_step (distributed : Bool) (b : DetBatch) (pred : List Nat) : DetRecord × Bool :=
  ({ images := none, target := b.bbox.zip b.label, pred := pred }, distributed)

/-- `DetectionPipeline.valid_step` (detection.py lines 48–88): in distributed
mode filters `images`, `bboxes`, `labels` and `pred` by the `-1` sentinel and
performs a barrier before building the returned `logs`. -/
def valid_step (distributed : Bool) (b : DetBatch) (pred : List Nat) : DetRecord × Bool :=
  if distributed then
    ({ images := some (filterBySentinel b.indices b.pixel_values),
       target := (filterBySentinel b.indices b.bbox).zip (filterBySentinel b.indices b.label),
       pred := filterBySentinel b.indices pred }, true)
  else
    ({ images := some b.pixel_values, target := b.bbox.zip b.label, pred := pred }, false)

end DetectionPipeline

/-- Batch record consumed by the segmentation steps (segmentation.py lines 24–26). -/
structure SegBatch where
  indices : List Int
  pixel_values : List Nat
  labels : List Nat
deriving DecidableEq, Repr

/-- The `logs` dict `SegmentationPipeline.valid_step` returns. -/
structure SegRecord where
  images : List Nat
  target : List Nat
  pred : List Nat
deriving DecidableEq, Repr

namespace SegmentationPipeline

/-- `SegmentationPipeline.train_step` (segmentation.py lines 22–56): returns
nothing; the observable result is the `(pred, labels)` pair handed to the
metric aggregator (filtered by the sentinel and gathered in distributed
mode) and whether a barrier was performed. -/
def train_step (distributed : Bool) (b : SegBatch) (pred : List Nat) :
    (List Nat × List Nat) × Bool :=
  if distributed then
    ((filterBySentinel b.indices pred, filterBySentinel b.indices b.labels), true)
  else
    ((pred, b.labels), false)

/-- `SegmentationPipeline.valid_step` (segmentation.py lines 58–98): in
distributed mode `pred` and `labels` are sentinel-filtered before the gather
and before the returned `logs`, but the returned `images` are the unfiltered
`images` tensor (segmentation.py line 90). -/
def valid_step (distributed : Bool) (b : SegBatch) (pred : List Nat) : SegRecord × Bool :=
  if distributed then
    ({ images := b.pixel_values,
       target := filterBySentinel b.indices b.labels,
       pred := filterBySentinel b.indices pred }, true)
  else
    ({ images := b.pixel_values, target := b.labels, pred := pred }, false)

end SegmentationPipeline

/-- `DetectionPipeline.get_metric_with_all_outputs(self, outputs, phase)`
(detection.py line 111) declares `phase` as a required positional parameter:
applying it to a call record that carries no `phase` argument raises
`TypeError` (missing required positional argument) before any metric work. -/
def detectionMetricDispatch (call : MetricCall) : Except PyError Unit :=
  match call.phase with
  | none => .error .typeError
  | some _ => .ok ()

/-! ## Claim theorems -/

/-- C1: the claim says a missing resume checkpoint path is recoverable —
warning, fresh-run values, no exception escaping `set_train`.  The code does
log the warning (whose text even promises to "Skip loading the previous
history"), but it lacks the early return: it falls through to
`torch.load` on the missing path, which raises `FileNotFoundError` out of
`set_train`.  This theorem evaluates `set_train` at the failing input. -/
theorem claim_C1_missing_resume :
    set_train 0 true (fun _ => none) (some "missing.ckpt") =
      ([LogEvent.warnMissingCheckpoint], Except.error PyError.fileNotFoundError) := rfl

theorem schedulerAfterContiguous_eq (atOne : Bool) (last : Int) (h : 0 ≤ last) :
    schedulerAfterContiguous atOne last = ⟨last + 1⟩ := by
  have hc := schedulerAfterContiguous_counter atOne last h
  cases hs : schedulerAfterContiguous atOne last with
  | mk c =>
    rw [hs] at hc
    change c = last + 1 at hc
    rw [hc]

/-- C2: resuming from a persisted summary with `last_epoch = L` loads the
persisted optimizer state into the freshly built optimizer, sets
`start_epoch` (the first executed epoch index, cf. the head of the epoch
range) to `L + 1`, and leaves the scheduler in the state a contiguous fresh
run through epoch `L` would have produced. -/
theorem claim_C2_resume (freshOpt : OptState) (b0 : Bool)
    (fs : String → Option CheckpointFile) (path : String) (ckpt : CheckpointFile)
    (hfs : fs path = some ckpt) (hpos : 0 ≤ ckpt.lastEpoch) :
    set_train freshOpt b0 fs (some path) =
      ([], Except.ok
        { optimizer := some ckpt.optimizer,
          scheduler := some (schedulerAfterContiguous ckpt.startEpochAtOne ckpt.lastEpoch),
          start_epoch := ckpt.lastEpoch + 1,
          start_epoch_at_one := ckpt.startEpochAtOne }) ∧
    (∀ epochs : Int, ckpt.lastEpoch + 1 < epochs + (if ckpt.startEpochAtOne then 1 else 0) →
      (trainEpochRange (ckpt.lastEpoch + 1) epochs ckpt.startEpochAtOne).head? =
        some (ckpt.lastEpoch + 1)) := by
  constructor
  · have hsch := schedulerAfterContiguous_eq ckpt.startEpochAtOne ckpt.lastEpoch hpos
    simp [set_train, hfs, hsch, Scheduler.stepTo]
  · intro epochs hlt
    unfold trainEpochRange
    rw [pythonRange_cons _ _ hlt]
    rfl

/-- C2 witness. -/
theorem claim_C2_resume_witness :
    set_train 0 true
        (fun p => if p = "training_summary.ckpt" then some ⟨7, 10, true⟩ else none)
        (some "training_summary.ckpt") =
      ([], Except.ok
        { optimizer := some 7,
          scheduler := some (schedulerAfterContiguous true 10),
          start_epoch := 10 + 1,
          start_epoch_at_one := true }) ∧
    (∀ epochs : Int, 10 + 1 < epochs + (if true then 1 else 0) →
      (trainEpochRange (10 + 1) epochs true).head? = some (10 + 1)) :=
  claim_C2_resume 0 true
    (fun p => if p = "training_summary.ckpt" then some ⟨7, 10, true⟩ else none)
    "training_summary.ckpt" ⟨7, 10, true⟩ (by simp) (by norm_num)

/-- C3 counterexample: a resumed primary-rank run with `start_epoch = 11`,
configured `epochs = 20` and 1-based numbering executes epochs `11..20` —
ten epochs, not `[11, 31)` with twenty epochs as the claim states. -/
theorem claim_C3_counterexample :
    (loggedOf (train true 11 20 true ⟨11⟩ (fun _ => [1]) (fun _ => EpochOutcome.ok)).effects).map
        Prod.fst = pythonRange 11 21 ∧
    pythonRange 11 21 ≠ pythonRange 11 (11 + 20) ∧
    ((loggedOf (train true 11 20 true ⟨11⟩ (fun _ => [1])
        (fun _ => EpochOutcome.ok)).effects).map Prod.fst).length = 10 := by
  refine ⟨by decide, by decide, by decide⟩

theorem expectedLog_map_fst (lrOf : Int → List ℚ) (l : List Int) :
    ∀ c : Int, (expectedLog lrOf l c).map Prod.fst = l := by
  induction l with
  | nil => intro c; rfl
  | cons e rest ih => intro c; simp [expectedLog, ih]

/-- C3 amended: for a primary-rank run in which every epoch completes, the
executed (logged) epoch indices are exactly
`range(start_epoch, epochs + start_epoch_at_one)`; the executed count equals
the configured `epochs` exactly when `start_epoch` keeps its fresh-run value
`int(start_epoch_at_one)` — a resumed run executes
`epochs + start_epoch_at_one - start_epoch` epochs instead. -/
theorem claim_C3_amended (start epochs : Int) (atOne : Bool) (c : Int)
    (lrOf : Int → List ℚ) (behavior : Int → EpochOutcome)
    (hok : ∀ e, behavior e = .ok) :
    (loggedOf (train true start epochs atOne ⟨c⟩ lrOf behavior).effects).map Prod.fst =
      pythonRange start (epochs + (if atOne then 1 else 0)) ∧
    (loggedOf (train true start epochs atOne ⟨c⟩ lrOf behavior).effects).length =
      (epochs + (if atOne then 1 else 0) - start).toNat ∧
    (start = (if atOne then 1 else 0) → 0 ≤ epochs →
      (loggedOf (train true start epochs atOne ⟨c⟩ lrOf behavior).effects).length =
        epochs.toNat) := by
  have hmain : (loggedOf (train true start epochs atOne ⟨c⟩ lrOf behavior).effects).map
      Prod.fst = pythonRange start (epochs + (if atOne then 1 else 0)) := by
    by_cases hne : start < epochs + (if atOne then 1 else 0)
    · rw [train_ok_primary start epochs atOne c lrOf behavior hne hok]
      simp only [loggedOf_append, loggedOf_okTrace, loggedOf, List.append_nil]
      exact expectedLog_map_fst lrOf _ _
    · rw [train_empty_primary start epochs atOne c lrOf behavior (not_lt.mp hne)]
      rw [pythonRange_nil _ _ (not_lt.mp hne)]
      rfl
  refine ⟨hmain, ?_, ?_⟩
  · have := congrArg List.length hmain
    rw [List.length_map, pythonRange_length] at this
    exact this
  · intro hfresh hpos
    have := congrArg List.length hmain
    rw [List.length_map, pythonRange_length] at this
    rw [this, hfresh]
    omega

/-- C3 amended witness. -/
theorem claim_C3_amended_witness :
    (loggedOf (train true 1 3 true ⟨1⟩ (fun _ => [1])
        (fun _ => EpochOutcome.ok)).effects).map Prod.fst =
      pythonRange 1 (3 + (if true then 1 else 0)) ∧
    (loggedOf (train true 1 3 true ⟨1⟩ (fun _ => [1])
        (fun _ => EpochOutcome.ok)).effects).length =
      ((3 : Int) + (if true then 1 else 0) - 1).toNat ∧
    ((1 : Int) = (if true then 1 else 0) → (0 : Int) ≤ 3 →
      (loggedOf (train true 1 3 true ⟨1⟩ (fun _ => [1])
          (fun _ => EpochOutcome.ok)).effects).length = (3 : Int).toNat) :=
  claim_C3_amended 1 3 true 1 (fun _ => [1]) (fun _ => EpochOutcome.ok) (fun _ => rfl)

/-- C4: if epoch `eI` of a primary-rank run raises `KeyboardInterrupt` after
the epochs before it completed, the handler persists exactly one checkpoint
and one training summary whose `last_epoch` is the last completed epoch
`eI - 1`, before the interrupt is re-raised; any other exception is re-raised
with no checkpoint and no summary written. -/
theorem claim_C4_interrupt_persists (start epochs : Int) (atOne : Bool) (c : Int)
    (lrOf : Int → List ℚ) (behavior : Int → EpochOutcome) (eI : Int)
    (hlo : start < eI) (hhi : eI < epochs + (if atOne then 1 else 0))
    (hok : ∀ e, start ≤ e → e < eI → behavior e = .ok) :
    (behavior eI = .keyboardInterrupt →
      train true start epochs atOne ⟨c⟩ lrOf behavior =
        { effects := okTrace lrOf (pythonRange start eI) c ++
            [.saveCheckpoint, .saveSummary (eI - 1)],
          raised := some .keyboardInterrupt } ∧
      (train true start epochs atOne ⟨c⟩ lrOf behavior).effects.count
          Effect.saveCheckpoint = 1 ∧
      summaryEpochsOf (train true start epochs atOne ⟨c⟩ lrOf behavior).effects =
        [eI - 1]) ∧
    (behavior eI = .raisesError →
      train true start epochs atOne ⟨c⟩ lrOf behavior =
        { effects := okTrace lrOf (pythonRange start eI) c,
          raised := some .exception } ∧
      (train true start epochs atOne ⟨c⟩ lrOf behavior).effects.count
          Effect.saveCheckpoint = 0 ∧
      summaryEpochsOf (train true start epochs atOne ⟨c⟩ lrOf behavior).effects = []) := by
  obtain ⟨hki, herr⟩ :=
    train_raise_primary start epochs atOne c lrOf behavior eI hlo hhi hok
  constructor
  · intro hb
    refine ⟨hki hb, ?_, ?_⟩
    · rw [hki hb]
      simp [List.count_append, okTrace_no_saveCheckpoint, List.count_cons]
    · rw [hki hb]
      simp [summaryEpochsOf_append, okTrace_no_summary, summaryEpochsOf]
  · intro hb
    refine ⟨herr hb, ?_, ?_⟩
    · rw [herr hb]
      simp [okTrace_no_saveCheckpoint]
    · rw [herr hb]
      simp [okTrace_no_summary]

/-- C4 witness. -/
theorem claim_C4_interrupt_persists_witness :
    (((fun e => if e = 3 then EpochOutcome.keyboardInterrupt else EpochOutcome.ok) 3 =
        EpochOutcome.keyboardInterrupt) →
      train true 1 5 true ⟨1⟩ (fun _ => [1])
          (fun e => if e = 3 then EpochOutcome.keyboardInterrupt else EpochOutcome.ok) =
        { effects := okTrace (fun _ => [1]) (pythonRange 1 3) 1 ++
            [.saveCheckpoint, .saveSummary (3 - 1)],
          raised := some .keyboardInterrupt } ∧
      (train true 1 5 true ⟨1⟩ (fun _ => [1])
          (fun e => if e = 3 then EpochOutcome.keyboardInterrupt else
            EpochOutcome.ok)).effects.count Effect.saveCheckpoint = 1 ∧
      summaryEpochsOf (train true 1 5 true ⟨1⟩ (fun _ => [1])
          (fun e => if e = 3 then EpochOutcome.keyboardInterrupt else
            EpochOutcome.ok)).effects = [3 - 1]) ∧
    (((fun e => if e = 3 then EpochOutcome.keyboardInterrupt else EpochOutcome.ok) 3 =
        EpochOutcome.raisesError) →
      train true 1 5 true ⟨1⟩ (fun _ => [1])
          (fun e => if e = 3 then EpochOutcome.keyboardInterrupt else EpochOutcome.ok) =
        { effects := okTrace (fun _ => [1]) (pythonRange 1 3) 1,
          raised := some .exception } ∧
      (train true 1 5 true ⟨1⟩ (fun _ => [1])
          (fun e => if e = 3 then EpochOutcome.keyboardInterrupt else
            EpochOutcome.ok)).effects.count Effect.saveCheckpoint = 0 ∧
      summaryEpochsOf (train true 1 5 true ⟨1⟩ (fun _ => [1])
          (fun e => if e = 3 then EpochOutcome.keyboardInterrupt else
            EpochOutcome.ok)).effects = []) :=
  claim_C4_interrupt_persists 1 5 true 1 (fun _ => [1])
    (fun e => if e = 3 then EpochOutcome.keyboardInterrupt else EpochOutcome.ok) 3
    (by norm_num) (by norm_num)
    (fun e h1 h2 => by simp [show ¬ e = 3 by omega])

/-- C5: in a primary-rank run of completing epochs, every logged epoch record
carries `learning_rate` equal to the arithmetic mean of the parameter-group
rates at the scheduler counter in effect during that epoch: the run's trace
is the `okTrace`, where each epoch's log record precedes that epoch's
`scheduler.step()`, and the logged pairs are `expectedLog` — epoch number `i`
of the range logs `learning_rate (lrOf (c + i))`, the pre-step value, never
the post-step `lrOf (c + i + 1)`. -/
theorem claim_C5_lr_logged_before_step (start epochs : Int) (atOne : Bool) (c : Int)
    (lrOf : Int → List ℚ) (behavior : Int → EpochOutcome)
    (hok : ∀ e, behavior e = .ok) :
    ∃ tail, (train true start epochs atOne ⟨c⟩ lrOf behavior).effects =
        okTrace lrOf (trainEpochRange start epochs atOne) c ++ tail ∧
      loggedOf tail = [] ∧
      loggedOf (train true start epochs atOne ⟨c⟩ lrOf behavior).effects =
        expectedLog lrOf (trainEpochRange start epochs atOne) c := by
  by_cases hne : start < epochs + (if atOne then 1 else 0)
  · rw [train_ok_primary start epochs atOne c lrOf behavior hne hok]
    refine ⟨[.logEndOfTraining, .saveCheckpoint,
      .saveSummary (epochs + (if atOne then 1 else 0) - 1)], rfl, rfl, ?_⟩
    simp [loggedOf_append, loggedOf_okTrace, loggedOf]
  · rw [train_empty_primary start epochs atOne c lrOf behavior (not_lt.mp hne)]
    have hempty : trainEpochRange start epochs atOne = [] := by
      unfold trainEpochRange
      exact pythonRange_nil _ _ (not_lt.mp hne)
    exact ⟨[], by simp [hempty, okTrace], rfl, by simp [hempty, expectedLog, loggedOf]⟩

/-- C5 witness. -/
theorem claim_C5_lr_logged_before_step_witness :
    ∃ tail, (train true 1 2 true ⟨1⟩ (fun k => [(k : ℚ)])
        (fun _ => EpochOutcome.ok)).effects =
        okTrace (fun k => [(k : ℚ)]) (trainEpochRange 1 2 true) 1 ++ tail ∧
      loggedOf tail = [] ∧
      loggedOf (train true 1 2 true ⟨1⟩ (fun k => [(k : ℚ)])
          (fun _ => EpochOutcome.ok)).effects =
        expectedLog (fun k => [(k : ℚ)]) (trainEpochRange 1 2 true) 1 :=
  claim_C5_lr_logged_before_step 1 2 true 1 (fun k => [(k : ℚ)])
    (fun _ => EpochOutcome.ok) (fun _ => rfl)

/-- C6: during a validation sweep a batch's output joins the returned sample
buffer iff the cumulative prediction count of the previously appended batches
is strictly below `NUM_SAMPLES = 16` (the buffer is a prefix of the non-`None`
outputs, so "previously appended" = the earlier non-`None` outputs), the
sweep always runs to completion, every non-`None` output reaches metric
aggregation, and with per-batch prediction counts `[5, 5, 5, 5]` all four
batches (20 items) are collected. -/
theorem claim_C6_sample_cap (evalOutputs : List (Option BatchOut)) :
    (validate evalOutputs).samples =
      (evalOutputs.filterMap id).take (validate evalOutputs).samples.length ∧
    (∀ i, i < (validate evalOutputs).samples.length ↔
      (i < (evalOutputs.filterMap id).length ∧
        predSum ((evalOutputs.filterMap id).take i) < NUM_SAMPLES)) ∧
    (validate evalOutputs).metricCalls.map MetricCall.outputs =
      [evalOutputs.filterMap id] ∧
    (validate [some ⟨0, 5⟩, some ⟨1, 5⟩, some ⟨2, 5⟩, some ⟨3, 5⟩]).samples =
      [⟨0, 5⟩, ⟨1, 5⟩, ⟨2, 5⟩, ⟨3, 5⟩] ∧
    predSum (validate [some ⟨0, 5⟩, some ⟨1, 5⟩, some ⟨2, 5⟩, some ⟨3, 5⟩]).samples = 20 := by
  have hsamp : (validate evalOutputs).samples =
      collect NUM_SAMPLES (evalOutputs.filterMap id) 0 := by
    simp [validate, validateGo_samples]
  have houts : (validate evalOutputs).metricCalls =
      [{ outputs := evalOutputs.filterMap id, phase := none }] := by
    simp [validate, validateGo_outputs]
  refine ⟨?_, ?_, ?_, by decide, by decide⟩
  · rw [hsamp]
    exact collect_eq_take NUM_SAMPLES (evalOutputs.filterMap id) 0
  · intro i
    rw [hsamp]
    simpa using collect_mem_iff NUM_SAMPLES (evalOutputs.filterMap id) 0 i
  · rw [houts]
    rfl

/-- C7: the claim says `validate` invokes `get_metric_with_all_outputs`
exactly once with the complete output list and `phase='valid'`.  The single
invocation and the complete list hold, but base.py line 252 passes no `phase`
argument at all, while `DetectionPipeline.get_metric_with_all_outputs`
declares `phase` as a required positional parameter — the call raises
`TypeError` instead of running with `phase='valid'`. -/
theorem claim_C7_metric_call_missing_phase :
    (validate [some ⟨0, 1⟩]).metricCalls = [{ outputs := [⟨0, 1⟩], phase := none }] ∧
    (∀ evalOutputs, (validate evalOutputs).metricCalls.length = 1) ∧
    detectionMetricDispatch { outputs := [⟨0, 1⟩], phase := none } =
      .error PyError.typeError ∧
    detectionMetricDispatch { outputs := [⟨0, 1⟩], phase := some Phase.valid } =
      .ok () := by
  exact ⟨rfl, fun _ => rfl, rfl, rfl⟩

/-- C8 counterexample: the claim derives `last_epoch` as the *maximum* key of
`train_losses` and says construction succeeds whenever `valid_losses` is
non-empty.  With `train_losses` inserted as `{3: 1, 1: 1}` the code returns
`last_epoch = 1` (the most recently inserted key), not the maximum `3`; and
with non-empty `valid_losses` but empty `train_losses` construction still
fails (`IndexError`). -/
theorem claim_C8_counterexample :
    postInit [(3, 1), (1, 1)] [(1, (1 : ℚ)/2)] = Except.ok (1, 1) ∧
    postInit [(3, 1), (1, 1)] [(1, (1 : ℚ)/2)] ≠ Except.ok (1, 3) ∧
    postInit [] [(1, (1 : ℚ)/2)] = Except.error PyError.indexError := by
  refine ⟨rfl, by decide, rfl⟩

/-- C8 amended: construction derives `best_epoch = argmin(valid_losses)` (a
key holding a minimal value) and `last_epoch` as the most recently inserted
key of `train_losses` (which is the maximum key only when epochs were
recorded in increasing order); it succeeds iff both dicts are non-empty —
empty `valid_losses` raises `ValueError`, empty `train_losses` raises
`IndexError`; and for `valid_losses = {1: 0.5, 2: 0.3, 3: 0.4}`,
`best_epoch = 2`. -/
theorem claim_C8_post_init (tl vl : List (Int × ℚ)) (htl : tl ≠ []) (hvl : vl ≠ []) :
    (∃ b last bv lastv, postInit tl vl = Except.ok (b, last) ∧
      (b, bv) ∈ vl ∧ (∀ p ∈ vl, bv ≤ p.2) ∧
      tl.getLast? = some (last, lastv)) ∧
    postInit tl [] = Except.error PyError.valueError ∧
    postInit [] vl = Except.error PyError.indexError ∧
    postInit [(1, 1/2), (2, 3/10), (3, 2/5)] [(1, 1/2), (2, 3/10), (3, 2/5)] =
      Except.ok (2, 3) := by
  obtain ⟨b, rv, hb, hmem, hall⟩ := argminKey_attains_min vl hvl
  have hsome : tl.getLast?.isSome := List.getLast?_isSome.mpr htl
  obtain ⟨⟨lk, lv⟩, hlast⟩ := Option.isSome_iff_exists.mp hsome
  refine ⟨⟨b, lk, rv, lv, ?_, hmem, hall, hlast⟩, ?_, ?_, ?_⟩
  case refine_4 =>
    norm_num [postInit, argminKey, argminGo, lastKey, Bind.bind, Except.bind,
      pure, Except.pure, List.getLast?_cons_cons, List.getLast?_singleton]
  · simp [postInit, hb, lastKey, hlast, Bind.bind, Except.bind, pure, Except.pure]
  · simp [postInit, argminKey, Bind.bind, Except.bind]
  · simp [postInit, hb, lastKey, Bind.bind, Except.bind]

/-- C8 amended witness. -/
theorem claim_C8_post_init_witness :
    (∃ b last bv lastv,
      postInit [((5 : Int), (1 : ℚ))] [((2 : Int), (1 : ℚ))] = Except.ok (b, last) ∧
      (b, bv) ∈ [((2 : Int), (1 : ℚ))] ∧ (∀ p ∈ [((2 : Int), (1 : ℚ))], bv ≤ p.2) ∧
      [((5 : Int), (1 : ℚ))].getLast? = some (last, lastv)) ∧
    postInit [((5 : Int), (1 : ℚ))] [] = Except.error PyError.valueError ∧
    postInit [] [((2 : Int), (1 : ℚ))] = Except.error PyError.indexError ∧
    postInit [(1, 1/2), (2, 3/10), (3, 2/5)] [(1, 1/2), (2, 3/10), (3, 2/5)] =
      Except.ok (2, 3) :=
  claim_C8_post_init [((5 : Int), (1 : ℚ))] [((2 : Int), (1 : ℚ))]
    (by simp) (by simp)

/-- C9 counterexample: the claim says every distributed `train_step` /
`valid_step` excludes the `-1`-sentinel positions before returning.
`DetectionPipeline.train_step` performs no sentinel filtering at all: with
`indices = [-1]` its returned record still carries the position's prediction
and target; and `SegmentationPipeline.valid_step` returns the *unfiltered*
images tensor. -/
theorem claim_C9_counterexample :
    (DetectionPipeline.train_step true ⟨[-1], [9], [7], [8]⟩ [42]).1.pred = [42] ∧
    (DetectionPipeline.train_step true ⟨[-1], [9], [7], [8]⟩ [42]).1.target = [(8, 7)] ∧
    (SegmentationPipeline.valid_step true ⟨[-1], [9], [7]⟩ [42]).1.images = [9] := by
  refine ⟨rfl, rfl, by decide⟩

/-- C9 amended: in distributed mode, `DetectionPipeline.valid_step` filters
its returned images, targets and predictions by the `-1` sentinel,
`SegmentationPipeline.train_step` filters the prediction/label pair handed
to metric aggregation, and `SegmentationPipeline.valid_step` filters its
returned predictions and targets but *not* its returned images; all of them
— and also `DetectionPipeline.train_step`, which performs no filtering at
all — execute a collective barrier before returning.  `filterBySentinel`
keeps exactly the positions whose index differs from `-1`, in order. -/
theorem claim_C9_sentinel_filtering (db : DetBatch) (sb : SegBatch)
    (dpred spred : List Nat) :
    DetectionPipeline.valid_step true db dpred =
      ({ images := some (filterBySentinel db.indices db.pixel_values),
         target := (filterBySentinel db.indices db.bbox).zip
           (filterBySentinel db.indices db.label),
         pred := filterBySentinel db.indices dpred }, true) ∧
    SegmentationPipeline.train_step true sb spred =
      ((filterBySentinel sb.indices spred, filterBySentinel sb.indices sb.labels), true) ∧
    SegmentationPipeline.valid_step true sb spred =
      ({ images := sb.pixel_values,
         target := filterBySentinel sb.indices sb.labels,
         pred := filterBySentinel sb.indices spred }, true) ∧
    DetectionPipeline.train_step true db dpred =
      ({ images := none, target := db.bbox.zip db.label, pred := dpred }, true) ∧
    (∀ (indices : List Int) (xs : List Nat),
      filterBySentinel indices xs =
        ((indices.zip xs).filter fun p => p.1 != -1).map Prod.snd) := by
  exact ⟨by simp [DetectionPipeline.valid_step],
    by simp [SegmentationPipeline.train_step],
    by simp [SegmentationPipeline.valid_step],
    rfl,
    fun indices xs => filterBySentinel_eq_filter_zip indices xs⟩

/-- C10: when the epoch range is empty
(`start_epoch ≥ epochs + start_epoch_at_one`), the loop body never assigns
`time_for_epoch`, so on the primary rank the end-of-training log raises
`UnboundLocalError` — `train()` neither completes normally nor persists a
checkpoint or summary (its effect list is empty). -/
theorem claim_C10_empty_range_unbound_local (start epochs : Int) (atOne : Bool)
    (c : Int) (lrOf : Int → List ℚ) (behavior : Int → EpochOutcome)
    (hempty : epochs + (if atOne then 1 else 0) ≤ start) :
    train true start epochs atOne ⟨c⟩ lrOf behavior =
      { effects := [], raised := some PyError.unboundLocalError } :=
  train_empty_primary start epochs atOne c lrOf behavior hempty

/-- C10 witness: a configured epoch count of 0 with 1-based numbering. -/
theorem claim_C10_empty_range_unbound_local_witness :
    train true 1 0 true ⟨1⟩ (fun _ => [1]) (fun _ => EpochOutcome.ok) =
      { effects := [], raised := some PyError.unboundLocalError } :=
  claim_C10_empty_range_unbound_local 1 0 true 1 (fun _ => [1])
    (fun _ => EpochOutcome.ok) (by norm_num)

end NetspressoTrainer
